import Mathlib

/-!
# Verification of the cloud-nuke core (region selection, discovery, batched deletion)

Shallow embedding of the Go sources `aws/aws.go` and the companion file holding
`AwsResource`, `nukeAsync`, `RetryGetResourceRequestStatus`, `truncateText` and the
custom error types.  Remote calls (Cloud Control `ListResources`, `DeleteResource`,
`GetResourceRequestStatus`) are modelled as deterministic oracles passed in as
function parameters; time (sleeps, waiter timing) is not modelled, as no claim
concerns real time.  Go strings are modelled as Lean `String` (byte/character
distinction matters only for multi-byte text, which no claim exercises).
-/

namespace CloudNuke

/-- Character-list prefix test used to embed Go `strings.Contains`. -/
def startsWithChars : List Char → List Char → Bool
  | _, [] => true
  | [], _ :: _ => false
  | a :: s, b :: t => a == b && startsWithChars s t

/-- Auxiliary scan for substring containment over character lists. -/
def containsSubAux : List Char → List Char → Bool
  | [], pat => pat.isEmpty
  | a :: s, pat => startsWithChars (a :: s) pat || containsSubAux s pat

/-- Embedding of Go `strings.Contains(s, pat)`. -/
def strContains (s pat : String) : Bool :=
  containsSubAux s.data pat.data

/-- If a non-empty pattern occurs as a substring then its first character occurs
in the scanned text. -/
theorem head_mem_of_containsSubAux {s : List Char} {c : Char} {p : List Char}
    (h : containsSubAux s (c :: p) = true) : c ∈ s := by
  induction s with
  | nil => simp [containsSubAux, List.isEmpty] at h
  | cons a s ih =>
    simp only [containsSubAux, Bool.or_eq_true] at h
    rcases h with h | h
    · simp only [startsWithChars, Bool.and_eq_true, beq_iff_eq] at h
      exact h.1 ▸ List.mem_cons_self a s
    · exact List.mem_cons_of_mem a (ih h)

/-- Fuel-driven digit extraction, least-significant first (`fuel` bounds the
iteration count; structural recursion keeps it kernel-reducible).  Together
with the reversal below it embeds Go `%d` formatting of a non-negative int. -/
def natDigitsRevGo (fuel n : Nat) : List Char :=
  match fuel with
  | 0 => [Char.ofNat (48 + n)]
  | fuel + 1 =>
    if n < 10 then [Char.ofNat (48 + n)]
    else Char.ofNat (48 + n % 10) :: natDigitsRevGo fuel (n / 10)

/-- Decimal digits of a natural number, least-significant first. -/
def natDigitsRev (n : Nat) : List Char :=
  natDigitsRevGo n n

/-- Embedding of Go `fmt` `%d` on a non-negative int. -/
def goItoa (n : Nat) : String :=
  ⟨(natDigitsRev n).reverse⟩

theorem isDigit_ofNat_digit (d : Nat) (h : d < 10) :
    (Char.ofNat (48 + d)).isDigit = true := by
  interval_cases d <;> decide

theorem isDigit_of_mem_natDigitsRevGo (fuel : Nat) :
    ∀ n : Nat, n ≤ fuel → ∀ c ∈ natDigitsRevGo fuel n, c.isDigit = true := by
  induction fuel with
  | zero =>
    intro n hn c hc
    have : n = 0 := by omega
    subst this
    rcases List.mem_singleton.mp hc with rfl
    exact isDigit_ofNat_digit 0 (by omega)
  | succ fuel ih =>
    intro n hn c hc
    rw [natDigitsRevGo] at hc
    split at hc
    · rcases List.mem_singleton.mp hc with rfl
      exact isDigit_ofNat_digit n (by omega)
    · rcases List.mem_cons.mp hc with rfl | hm
      · exact isDigit_ofNat_digit (n % 10) (Nat.mod_lt _ (by omega))
      · exact ih (n / 10) (by
          have : n / 10 < n := Nat.div_lt_self (by omega) (by omega)
          omega) c hm

theorem isDigit_of_mem_goItoa {n : Nat} {c : Char} (h : c ∈ (goItoa n).data) :
    c.isDigit = true :=
  isDigit_of_mem_natDigitsRevGo n n le_rfl c (List.mem_reverse.mp h)

/-! ## `split` (aws/aws.go lines 136-154) -/

/-- The chunking loop of `split`: while `len(identifiers) >= limit` carve off a
chunk of `limit`, then append the non-empty remainder.  The `fuel` argument
(instantiated with the list length, which bounds the iteration count) makes the
recursion structural and hence kernel-reducible; the source only reaches this
loop with a strictly positive `limit` (the `limit == 0` case returns earlier),
and the `0 < l` guard keeps the Lean function total for `l = 0` as well. -/
def chunkLoopGo (fuel l : Nat) (ids : List String) : List (List String) :=
  match fuel with
  | 0 => if 0 < ids.length then [ids] else []
  | fuel + 1 =>
    if 0 < l ∧ l ≤ ids.length then
      ids.take l :: chunkLoopGo fuel l (ids.drop l)
    else if 0 < ids.length then [ids]
    else []

def chunkLoop (l : Nat) (ids : List String) : List (List String) :=
  chunkLoopGo ids.length l ids

/-- Embedding of `split(identifiers []string, limit int) [][]string`:
a negative limit is negated, a zero limit yields one batch holding everything,
and otherwise the identifier list is carved into chunks of `limit`. -/
def split (identifiers : List String) (limit : Int) : List (List String) :=
  if limit = 0 then [identifiers]
  else chunkLoop limit.natAbs identifiers

theorem chunkLoopGo_flatten (l : Nat) :
    ∀ (fuel : Nat) (ids : List String), ids.length ≤ fuel →
      (chunkLoopGo fuel l ids).flatten = ids := by
  intro fuel
  induction fuel with
  | zero =>
    intro ids hfuel
    have : ids = [] := List.eq_nil_of_length_eq_zero (by omega)
    subst this
    rfl
  | succ fuel ih =>
    intro ids hfuel
    rw [chunkLoopGo]
    split
    · rename_i h
      rw [List.flatten_cons, ih (ids.drop l) (by simp; omega),
        List.take_append_drop]
    · split
      · rw [List.flatten_cons, List.flatten_nil, List.append_nil]
      · rename_i h hpos
        have : ids = [] := List.eq_nil_of_length_eq_zero (by omega)
        rw [this, List.flatten_nil]

theorem chunkLoop_flatten (l : Nat) (ids : List String) :
    (chunkLoop l ids).flatten = ids :=
  chunkLoopGo_flatten l ids.length ids le_rfl

theorem chunkLoopGo_length (l : Nat) (hl : 0 < l) :
    ∀ (fuel : Nat) (ids : List String), ids.length ≤ fuel →
      (chunkLoopGo fuel l ids).length = (ids.length + l - 1) / l := by
  intro fuel
  induction fuel with
  | zero =>
    intro ids hfuel
    have : ids = [] := List.eq_nil_of_length_eq_zero (by omega)
    subst this
    rw [show chunkLoopGo 0 l [] = [] from rfl, List.length_nil,
      Nat.div_eq_of_lt (by omega)]
  | succ fuel ih =>
    intro ids hfuel
    rw [chunkLoopGo]
    split
    · rename_i h
      rw [List.length_cons, ih (ids.drop l) (by simp; omega)]
      simp only [List.length_drop]
      have heq : ids.length + l - 1 = (ids.length - l + l - 1) + l := by omega
      rw [heq, Nat.add_div_right _ hl]
    · split
      · rename_i h hpos
        rw [List.length_singleton]
        have h1 : ids.length + l - 1 = (ids.length - 1) + l := by omega
        rw [h1, Nat.add_div_right _ hl, Nat.div_eq_of_lt (by omega)]
      · rename_i h hpos
        rw [List.length_nil, Nat.div_eq_of_lt (by omega)]

theorem chunkLoop_length (l : Nat) (ids : List String) (hl : 0 < l) :
    (chunkLoop l ids).length = (ids.length + l - 1) / l :=
  chunkLoopGo_length l hl ids.length ids le_rfl

theorem chunkLoopGo_eq_nil_iff (fuel l : Nat) (ids : List String) :
    chunkLoopGo fuel l ids = [] ↔ ids = [] := by
  cases fuel with
  | zero =>
    rw [chunkLoopGo]
    split
    · rename_i hpos
      exact iff_of_false (List.cons_ne_nil _ _)
        (fun hnil => by rw [hnil] at hpos; simp at hpos)
    · rename_i hpos
      exact iff_of_true rfl (List.eq_nil_of_length_eq_zero (by omega))
  | succ fuel =>
    rw [chunkLoopGo]
    split
    · rename_i h
      exact iff_of_false (List.cons_ne_nil _ _)
        (fun hnil => by rw [hnil] at h; simp at h; omega)
    · split
      · rename_i h hpos
        exact iff_of_false (List.cons_ne_nil _ _)
          (fun hnil => by rw [hnil] at hpos; simp at hpos)
      · rename_i h hpos
        exact iff_of_true rfl (List.eq_nil_of_length_eq_zero (by omega))

theorem chunkLoopGo_dropLast (l : Nat) :
    ∀ (fuel : Nat) (ids : List String), ids.length ≤ fuel →
      ∀ b ∈ (chunkLoopGo fuel l ids).dropLast, b.length = l := by
  intro fuel
  induction fuel with
  | zero =>
    intro ids hfuel b hb
    have : ids = [] := List.eq_nil_of_length_eq_zero (by omega)
    subst this
    simp [chunkLoopGo] at hb
  | succ fuel ih =>
    intro ids hfuel b hb
    rw [chunkLoopGo] at hb
    split at hb
    · rename_i h
      by_cases hrest : chunkLoopGo fuel l (ids.drop l) = []
      · rw [hrest] at hb
        simp at hb
      · rw [List.dropLast_cons_of_ne_nil hrest] at hb
        rcases List.mem_cons.mp hb with rfl | hmem
        · rw [List.length_take]
          omega
        · exact ih (ids.drop l) (by simp; omega) b hmem
    · split at hb
      · simp at hb
      · simp at hb

theorem chunkLoop_dropLast (l : Nat) (ids : List String) :
    ∀ b ∈ (chunkLoop l ids).dropLast, b.length = l :=
  chunkLoopGo_dropLast l ids.length ids le_rfl

theorem chunkLoopGo_getLast (l : Nat) (hl : 0 < l) :
    ∀ (fuel : Nat) (ids : List String), ids.length ≤ fuel →
      ∀ b, (chunkLoopGo fuel l ids).getLast? = some b →
        b.length = if ids.length % l = 0 then l else ids.length % l := by
  intro fuel
  induction fuel with
  | zero =>
    intro ids hfuel b hb
    have : ids = [] := List.eq_nil_of_length_eq_zero (by omega)
    subst this
    simp [chunkLoopGo] at hb
  | succ fuel ih =>
    intro ids hfuel b hb
    rw [chunkLoopGo] at hb
    split at hb
    · rename_i h
      by_cases hrest : chunkLoopGo fuel l (ids.drop l) = []
      · rw [hrest, List.getLast?_singleton, Option.some.injEq] at hb
        subst hb
        have hdrop : ids.drop l = [] :=
          (chunkLoopGo_eq_nil_iff fuel l (ids.drop l)).mp hrest
        have hxlen : ids.length = l := by
          have := congrArg List.length hdrop
          simp only [List.length_drop, List.length_nil] at this
          omega
        rw [List.length_take, hxlen]
        simp [Nat.mod_self]
    
      · rcases List.exists_cons_of_ne_nil hrest with ⟨r, rs, hcons⟩
        rw [hcons, List.getLast?_cons_cons] at hb
        have := ih (ids.drop l) (by simp; omega) b (by rw [hcons]; exact hb)
        have hmod : (ids.drop l).length % l = ids.length % l := by
          simp only [List.length_drop]
          conv_rhs => rw [show ids.length = (ids.length - l) + l by omega]
          rw [Nat.add_mod_right]
        rw [hmod] at this
        exact this
    · split at hb
      · rename_i h hpos
        rw [List.getLast?_singleton, Option.some.injEq] at hb
        subst hb
        have hlt : ids.length < l := by omega
        rw [Nat.mod_eq_of_lt hlt, if_neg (by omega)]
      · simp at hb

theorem chunkLoop_getLast (l : Nat) (ids : List String) (hl : 0 < l) :
    ∀ b, (chunkLoop l ids).getLast? = some b →
      b.length = if ids.length % l = 0 then l else ids.length % l :=
  chunkLoopGo_getLast l hl ids.length ids le_rfl

/-- C5: for identifiers of length N and positive limit L, `split` produces
ceil(N/L) batches, each of size L except possibly the last (whose size is
N mod L if that is nonzero, else L), concatenating the batches in order
reproduces the input exactly, and `split(identifiers, 0)` returns one batch
containing all identifiers. -/
theorem split_batches_spec (ids : List String) (L : Nat) (hL : 0 < L) :
    (split ids (L : Int)).length = (ids.length + L - 1) / L ∧
    (split ids (L : Int)).flatten = ids ∧
    (∀ b ∈ (split ids (L : Int)).dropLast, b.length = L) ∧
    (∀ b, (split ids (L : Int)).getLast? = some b →
      b.length = if ids.length % L = 0 then L else ids.length % L) ∧
    split ids 0 = [ids] := by
  have hne : (L : Int) ≠ 0 := by
    exact_mod_cast hL.ne'
  have hssplit : split ids (L : Int) = chunkLoop L ids := by
    rw [split, if_neg hne, Int.natAbs_ofNat]
  rw [hssplit]
  refine ⟨chunkLoop_length L ids hL, chunkLoop_flatten L ids,
    chunkLoop_dropLast L ids, chunkLoop_getLast L ids hL, ?_⟩
  rw [split, if_pos rfl]

/-- Witness for C5 at the spec's own example
`split(["a","b","c","d","e"], 2) = [["a","b"],["c","d"],["e"]]`. -/
theorem split_batches_spec_witness :
    0 < 2 ∧
    (split ["a", "b", "c", "d", "e"] ((2 : Nat) : Int)).flatten
      = ["a", "b", "c", "d", "e"] ∧
    (split ["a", "b", "c", "d", "e"] ((2 : Nat) : Int)).length
      = (["a", "b", "c", "d", "e"].length + 2 - 1) / 2 ∧
    split ["a", "b", "c", "d", "e"] 0 = [["a", "b", "c", "d", "e"]] :=
  ⟨by decide,
    (split_batches_spec ["a", "b", "c", "d", "e"] 2 (by decide)).2.1,
    (split_batches_spec ["a", "b", "c", "d", "e"] 2 (by decide)).1,
    (split_batches_spec ["a", "b", "c", "d", "e"] 2 (by decide)).2.2.2.2⟩

/-! ## `GetTargetRegions` (aws/aws.go lines 158-211) -/

/-- The distinct failure values produced by `GetTargetRegions`, one constructor
per `fmt.Errorf` site in the source. -/
inductive RegionSelectionErr where
  | emptyEnabled : RegionSelectionErr
  | bothSelectedAndExcluded : RegionSelectionErr
  | invalidRegion (invalid : List String) : RegionSelectionErr
  | invalidExcludeRegion (invalid : List String) : RegionSelectionErr
  | cannotExcludeAll (excluded : List String) : RegionSelectionErr
  deriving DecidableEq, Repr

/-- Embedding of `collections.ListContainsElement` for string slices. -/
def listContainsElement (xs : List String) (x : String) : Bool :=
  xs.contains x

theorem listContainsElement_iff (xs : List String) (x : String) :
    listContainsElement xs x = true ↔ x ∈ xs := by
  simp [listContainsElement]

theorem listContainsElement_eq_false (xs : List String) (x : String) :
    listContainsElement xs x = false ↔ x ∉ xs := by
  simp [listContainsElement]

/-- Embedding of `GetTargetRegions(enabledRegions, selectedRegions,
excludedRegions []string) ([]string, error)`. -/
def GetTargetRegions (enabledRegions selectedRegions excludedRegions : List String) :
    Except RegionSelectionErr (List String) :=
  if enabledRegions.length = 0 then .error .emptyEnabled
  else if selectedRegions.length = 0 ∧ excludedRegions.length = 0 then
    .ok enabledRegions
  else if 0 < selectedRegions.length ∧ 0 < excludedRegions.length then
    .error .bothSelectedAndExcluded
  else
    let invalidSelected :=
      selectedRegions.filter (fun r => ! listContainsElement enabledRegions r)
    if 0 < invalidSelected.length then .error (.invalidRegion invalidSelected)
    else if 0 < selectedRegions.length then .ok selectedRegions
    else
      let invalidExcluded :=
        excludedRegions.filter (fun r => ! listContainsElement enabledRegions r)
      if 0 < invalidExcluded.length then
        .error (.invalidExcludeRegion invalidExcluded)
      else
        let targetRegions :=
          if 0 < excludedRegions.length then
            enabledRegions.filter (fun r => ! listContainsElement excludedRegions r)
          else []
        if targetRegions.length = 0 then .error (.cannotExcludeAll excludedRegions)
        else .ok targetRegions

/-- C6 (amended): given a NON-EMPTY enabled list, `GetTargetRegions` fails when
both selected and excluded are non-empty; returns enabled verbatim when both are
empty; when selected is non-empty it fails listing the invalid entries if any
element is not a member of enabled and otherwise returns selected; when excluded
is non-empty it fails if any element is not a member of enabled, otherwise
returns enabled minus excluded, and fails if that difference is empty.  (With an
empty enabled list the function instead fails with the dedicated
"empty enabled regions" error.) -/
theorem getTargetRegions_cases (enabled selected excluded : List String)
    (hen : enabled ≠ []) :
    (selected ≠ [] → excluded ≠ [] →
      GetTargetRegions enabled selected excluded = .error .bothSelectedAndExcluded) ∧
    (selected = [] → excluded = [] →
      GetTargetRegions enabled selected excluded = .ok enabled) ∧
    (selected ≠ [] → excluded = [] →
      ((∀ r ∈ selected, r ∈ enabled) →
        GetTargetRegions enabled selected excluded = .ok selected) ∧
      ((∃ r ∈ selected, r ∉ enabled) →
        ∃ bad, GetTargetRegions enabled selected excluded
            = .error (.invalidRegion bad) ∧
          bad ≠ [] ∧ ∀ r, r ∈ bad ↔ r ∈ selected ∧ r ∉ enabled)) ∧
    (selected = [] → excluded ≠ [] →
      ((∃ r ∈ excluded, r ∉ enabled) →
        ∃ bad, GetTargetRegions enabled selected excluded
            = .error (.invalidExcludeRegion bad) ∧
          bad ≠ [] ∧ ∀ r, r ∈ bad ↔ r ∈ excluded ∧ r ∉ enabled) ∧
      ((∀ r ∈ excluded, r ∈ enabled) →
        (enabled.filter (fun r => ! listContainsElement excluded r) = [] →
          GetTargetRegions enabled selected excluded
            = .error (.cannotExcludeAll excluded)) ∧
        (enabled.filter (fun r => ! listContainsElement excluded r) ≠ [] →
          GetTargetRegions enabled selected excluded
              = .ok (enabled.filter (fun r => ! listContainsElement excluded r)) ∧
            ∀ r, r ∈ enabled.filter (fun r => ! listContainsElement excluded r)
              ↔ r ∈ enabled ∧ r ∉ excluded))) := by
  have h1 : ¬ enabled.length = 0 := by
    simpa [List.length_eq_zero] using hen
  refine ⟨?_, ?_, ?_, ?_⟩
  · intro hsel hexc
    have h2 : ¬ selected.length = 0 := by
      simpa [List.length_eq_zero] using hsel
    have h3 : ¬ excluded.length = 0 := by
      simpa [List.length_eq_zero] using hexc
    have h2p : 0 < selected.length := Nat.pos_of_ne_zero h2
    have h3p : 0 < excluded.length := Nat.pos_of_ne_zero h3
    simp [GetTargetRegions, h1, h2, h2p, h3p]
  · intro hsel hexc
    subst hsel; subst hexc
    simp [GetTargetRegions, h1]
  · intro hsel hexc
    subst hexc
    have h2 : ¬ selected.length = 0 := by
      simpa [List.length_eq_zero] using hsel
    have h2p : 0 < selected.length := Nat.pos_of_ne_zero h2
    constructor
    · intro hall
      have hfil : selected.filter (fun r => ! listContainsElement enabled r) = [] := by
        rw [List.filter_eq_nil_iff]
        intro a ha
        simp [listContainsElement_iff, hall a ha]
      simp [GetTargetRegions, h1, h2, h2p, hfil]
    · intro hbad
      obtain ⟨r0, hr0s, hr0e⟩ := hbad
      have hmem : r0 ∈ selected.filter (fun r => ! listContainsElement enabled r) := by
        rw [List.mem_filter]
        exact ⟨hr0s, by simp [(listContainsElement_eq_false _ _).mpr hr0e]⟩
      have hfilpos : 0 < (selected.filter (fun r => ! listContainsElement enabled r)).length :=
        List.length_pos.mpr (List.ne_nil_of_mem hmem)
      refine ⟨selected.filter (fun r => ! listContainsElement enabled r), ?_, ?_, ?_⟩
      · simp [GetTargetRegions, h1, h2, hfilpos]
      · exact List.ne_nil_of_mem hmem
      · intro r
        rw [List.mem_filter]
        simp [listContainsElement_eq_false]
  · intro hsel hexc
    subst hsel
    have h3 : ¬ excluded.length = 0 := by
      simpa [List.length_eq_zero] using hexc
    have h3p : 0 < excluded.length := Nat.pos_of_ne_zero h3
    constructor
    · intro hbad
      obtain ⟨r0, hr0s, hr0e⟩ := hbad
      have hmem : r0 ∈ excluded.filter (fun r => ! listContainsElement enabled r) := by
        rw [List.mem_filter]
        exact ⟨hr0s, by simp [(listContainsElement_eq_false _ _).mpr hr0e]⟩
      have hfilpos : 0 < (excluded.filter (fun r => ! listContainsElement enabled r)).length :=
        List.length_pos.mpr (List.ne_nil_of_mem hmem)
      refine ⟨excluded.filter (fun r => ! listContainsElement enabled r), ?_, ?_, ?_⟩
      · simp [GetTargetRegions, h1, h3, hfilpos]
      · exact List.ne_nil_of_mem hmem
      · intro r
        rw [List.mem_filter]
        simp [listContainsElement_eq_false]
    · intro hall
      have hfil : excluded.filter (fun r => ! listContainsElement enabled r) = [] := by
        rw [List.filter_eq_nil_iff]
        intro a ha
        simp [listContainsElement_iff, hall a ha]
      constructor
      · intro hdiff
        simp [GetTargetRegions, h1, h3, h3p, hfil, hdiff]
      · intro hdiff
        have hdpos : 0 < (enabled.filter (fun r => ! listContainsElement excluded r)).length :=
          List.length_pos.mpr hdiff
        refine ⟨by simp [GetTargetRegions, h1, h3, h3p, hfil, Nat.pos_iff_ne_zero.mp hdpos], ?_⟩
        intro r
        rw [List.mem_filter]
        simp [listContainsElement_eq_false]

/-- C6 counterexample: with an empty enabled list (and both selection lists
empty) the function fails with the "empty enabled regions" error instead of
returning the enabled list verbatim. -/
theorem getTargetRegions_empty_enabled_cex :
    GetTargetRegions [] [] [] = .error .emptyEnabled ∧
    GetTargetRegions [] [] [] ≠ .ok [] := by
  refine ⟨rfl, ?_⟩
  intro h
  rw [show GetTargetRegions [] [] [] = .error .emptyEnabled from rfl] at h
  exact Except.noConfusion h

/-- Witness for the amended C6: on a concrete non-empty enabled list, selecting
one valid region returns exactly that region. -/
theorem getTargetRegions_cases_witness :
    (["us-east-1", "us-west-2", "eu-west-1"] : List String) ≠ [] ∧
    GetTargetRegions ["us-east-1", "us-west-2", "eu-west-1"] ["us-east-1"] []
      = .ok ["us-east-1"] :=
  ⟨by decide,
    ((getTargetRegions_cases ["us-east-1", "us-west-2", "eu-west-1"]
        ["us-east-1"] [] (by decide)).2.2.1 (by decide) rfl).1 (by decide)⟩

/-! ## Cloud Control data model (companion file lines 111-135, 206-302) -/

/-- AWS Cloud Control enum string values used by the source. -/
def OperationStatusSuccess : String := "SUCCESS"

def OperationStatusFailed : String := "FAILED"

def OperationStatusCancelComplete : String := "CANCEL_COMPLETE"

def OperationDelete : String := "DELETE"

def HandlerErrorCodeNotFound : String := "NotFound"

/-- `types.ProgressEvent`: the provider's report on one asynchronous request.
`StatusMessage` is a nilable string pointer in the source. -/
structure ProgressEvent where
  Operation : String
  OperationStatus : String
  StatusMessage : Option String
  ErrorCode : String
  deriving DecidableEq, Repr

/-- `aws.ToString` on a `*string`: the empty string when nil. -/
def awsToString : Option String → String
  | none => ""
  | some s => s

/-- Embedding of the closure returned by `RetryGetResourceRequestStatus(nil)`
(companion file lines 271-295).  Given the latest `GetResourceRequestStatus`
progress event and call error, it returns (keep-polling?, error).  The
`pProgressEvent` out-parameter is nil at the only call site and is omitted. -/
def RetryGetResourceRequestStatus (pe : ProgressEvent) (err : Option String) :
    Bool × Option String :=
  match err with
  | some e => (true, some e)
  | none =>
    if pe.OperationStatus = OperationStatusSuccess ∨
        pe.OperationStatus = OperationStatusCancelComplete then
      (false, none)
    else if pe.OperationStatus = OperationStatusFailed then
      if pe.ErrorCode = HandlerErrorCodeNotFound ∧ pe.Operation = OperationDelete then
        (false, none)
      else
        (false, some ("waiter state transitioned to " ++ pe.OperationStatus ++
          ". StatusMessage: " ++ awsToString pe.StatusMessage ++
          ". ErrorCode: " ++ pe.ErrorCode))
    else (true, none)

/-- C8: the polling retry predicate treats Success and CancelComplete statuses as
successful termination (stop polling, no error); treats a Failed status whose
error code is "not found" while the operation is delete as success; treats any
other Failed status as a hard error carrying the provider's status message and
error code; and keeps polling for every non-terminal status. -/
theorem retry_predicate_spec (pe : ProgressEvent) :
    ((pe.OperationStatus = OperationStatusSuccess ∨
      pe.OperationStatus = OperationStatusCancelComplete) →
      RetryGetResourceRequestStatus pe none = (false, none)) ∧
    (pe.OperationStatus = OperationStatusFailed →
      pe.ErrorCode = HandlerErrorCodeNotFound → pe.Operation = OperationDelete →
      RetryGetResourceRequestStatus pe none = (false, none)) ∧
    (pe.OperationStatus = OperationStatusFailed →
      ¬(pe.ErrorCode = HandlerErrorCodeNotFound ∧ pe.Operation = OperationDelete) →
      RetryGetResourceRequestStatus pe none =
        (false, some ("waiter state transitioned to " ++ pe.OperationStatus ++
          ". StatusMessage: " ++ awsToString pe.StatusMessage ++
          ". ErrorCode: " ++ pe.ErrorCode))) ∧
    (pe.OperationStatus ≠ OperationStatusSuccess →
      pe.OperationStatus ≠ OperationStatusCancelComplete →
      pe.OperationStatus ≠ OperationStatusFailed →
      RetryGetResourceRequestStatus pe none = (true, none)) := by
  refine ⟨?_, ?_, ?_, ?_⟩
  · intro h
    rw [RetryGetResourceRequestStatus, if_pos h]
  · intro hf hnf hdel
    have hns : ¬(pe.OperationStatus = OperationStatusSuccess ∨
        pe.OperationStatus = OperationStatusCancelComplete) := by
      rw [hf]; decide
    rw [RetryGetResourceRequestStatus, if_neg hns, if_pos hf, if_pos ⟨hnf, hdel⟩]
  · intro hf hno
    have hns : ¬(pe.OperationStatus = OperationStatusSuccess ∨
        pe.OperationStatus = OperationStatusCancelComplete) := by
      rw [hf]; decide
    rw [RetryGetResourceRequestStatus, if_neg hns, if_pos hf, if_neg hno]
  · intro h1 h2 h3
    rw [RetryGetResourceRequestStatus, if_neg (by simp [h1, h2]), if_neg h3]

/-- Witness for C8: an already-deleted resource (Failed / NotFound during a
DELETE) terminates the wait successfully, with no error attached. -/
theorem retry_predicate_spec_witness :
    ({ Operation := "DELETE", OperationStatus := "FAILED",
       StatusMessage := some "not found", ErrorCode := "NotFound" } :
        ProgressEvent).OperationStatus = OperationStatusFailed ∧
    RetryGetResourceRequestStatus
      { Operation := "DELETE", OperationStatus := "FAILED",
        StatusMessage := some "not found", ErrorCode := "NotFound" } none
      = (false, none) :=
  ⟨rfl,
    (retry_predicate_spec
      { Operation := "DELETE", OperationStatus := "FAILED",
        StatusMessage := some "not found", ErrorCode := "NotFound" }).2.1
      rfl rfl rfl⟩

/-! ## `truncateText`, `nukeAsync` and `AwsResource.Nuke`
(companion file lines 111-193, 206-302, 372-378) -/

/-- Embedding of `truncateText(s string, max int) string`.  Go indexes bytes;
character indexing agrees on the single-byte text every call site produces. -/
def truncateText (s : String) (max : Nat) : String :=
  if s.length < max then s
  else ⟨s.data.take max⟩

theorem length_string_mk (l : List Char) : (⟨l⟩ : String).length = l.length :=
  rfl

theorem truncateText_length_le (s : String) (max : Nat) :
    (truncateText s max).length ≤ max := by
  rw [truncateText]
  split
  · omega
  · rw [length_string_mk, List.length_take]
    omega

/-- `AwsResource`: one discovered resource type together with the identifiers
found for it. -/
structure AwsResource where
  TypeName : String
  Identifiers : List String
  deriving DecidableEq, Repr

def AwsResource.ResourceName (a : AwsResource) : String :=
  a.TypeName

def AwsResource.ResourceIdentifiers (a : AwsResource) : List String :=
  a.Identifiers

def AwsResource.MaxBatchSize (_ : AwsResource) : Nat :=
  50

/-- Per-identifier deletion outcome (`AwsResourceResult`). -/
structure AwsResourceResult where
  TypeName : String
  Identifier : String
  Operation : String
  OperationStatus : String
  StatusMessage : String
  Error : Option String
  deriving DecidableEq, Repr

/-- Deterministic oracle standing for the remote Cloud Control client inside
one `Nuke` call: per identifier, the error (if any) of `DeleteResource`, and
the output and error of the final `GetResourceRequestStatus` call. -/
structure DeleteApi where
  deleteErr : String → Option String
  statusOutput : String → Option ProgressEvent
  statusErr : String → Option String

/-- Embedding of `nukeAsync` (companion file lines 206-269): the result one
goroutine writes to its channel for one identifier.  The waiter only affects
timing (its error is discarded by the source), so it does not appear. -/
def nukeAsync (api : DeleteApi) (typeName identifier : String) : AwsResourceResult :=
  match api.deleteErr identifier with
  | some e =>
      { TypeName := typeName, Identifier := identifier, Operation := "",
        OperationStatus := "", StatusMessage := "", Error := some e }
  | none =>
      match api.statusOutput identifier with
      | some pe =>
          { TypeName := typeName, Identifier := identifier,
            Operation := truncateText pe.Operation 25,
            OperationStatus := truncateText pe.OperationStatus 25,
            StatusMessage := truncateText (awsToString pe.StatusMessage) 60,
            Error := api.statusErr identifier }
      | none =>
          { TypeName := typeName, Identifier := identifier, Operation := "",
            OperationStatus := "Not Available", StatusMessage := "Not Available",
            Error := api.statusErr identifier }

/-- The two error shapes `Nuke` can return: the `TooManyResourcesTargetedErr`
safety error, or the aggregated per-identifier multierror. -/
inductive NukeErr where
  | tooMany (numTargets : Nat)
  | multi (errs : List String)
  deriving DecidableEq, Repr

/-- `Error()` text of `TooManyResourcesTargetedErr` (companion file lines
372-378). -/
def tooManyResourcesTargetedErrText (numTargets : Nat) : String :=
  "You have selected too many resources (" ++ goItoa numTargets ++
    ") to nuke at once. Halting to avoid hitting AWS API rate limits"

/-- `Error()` text of a hashicorp go-multierror under its default formatter
(external dependency, embedded for the engine's substring test). -/
def multiErrorText (errs : List String) : String :=
  match errs with
  | [e] => "1 error occurred:\n\t* " ++ e ++ "\n\n"
  | es => goItoa es.length ++ " errors occurred:\n\t* " ++
      String.intercalate "\n\t* " es ++ "\n\n"

/-- The `Error()` text the engine sees for a `Nuke` failure
(`errors.WithStackTrace` preserves the message). -/
def renderNukeErr : NukeErr → String
  | .tooMany n => tooManyResourcesTargetedErrText n
  | .multi es => multiErrorText es

/-- ANSI wrapping standing for the pterm color styling; no claim depends on the
exact escape codes. -/
def ansiColor (code : String) (s : String) : String :=
  "\x1b[" ++ code ++ "m" ++ s ++ "\x1b[0m"

def colorTypeAndIdentifier (typeName identifier : String) : String :=
  ansiColor "95" typeName ++ " - " ++ ansiColor "94" identifier

def colorOperationStatus (s : String) : String :=
  if s = "SUCCESS" then ansiColor "92" s else ansiColor "91" s

/-- One rendered table row for an identifier and its result. -/
def mkRow (identifier : String) (r : AwsResourceResult) : List String :=
  [colorTypeAndIdentifier r.TypeName identifier, r.Operation,
    colorOperationStatus r.OperationStatus, r.StatusMessage,
    match r.Error with | some e => e | none => "nil"]

/-- Insert-or-replace into the identifier-keyed `resultsMap` (Go map write;
insertion order stands in for Go's unspecified iteration order — every claim
proved about the rows is order-insensitive). -/
def upsertResult (m : List (String × AwsResourceResult)) (r : AwsResourceResult) :
    List (String × AwsResourceResult) :=
  match m with
  | [] => [(r.Identifier, r)]
  | (k, v) :: rest =>
      if k = r.Identifier then (k, r) :: rest
      else (k, v) :: upsertResult rest r

/-- What one `Nuke` call did: which identifiers had a `DeleteResource` issued,
the collected per-identifier results, the rendered rows, and the returned
error. -/
structure NukeOutcome where
  issued : List String
  results : List AwsResourceResult
  table : List (List String)
  err : Option NukeErr
  deriving Repr

/-- Embedding of `AwsResource.Nuke` (companion file lines 137-193): reject
over-large batches, fan out one `nukeAsync` per identifier, collect results
keyed by identifier, aggregate the per-identifier errors, render the rows. -/
def AwsResource.Nuke (api : DeleteApi) (a : AwsResource)
    (identifiers : List String) : NukeOutcome :=
  if identifiers.length > a.MaxBatchSize then
    { issued := [], results := [], table := [],
      err := some (.tooMany identifiers.length) }
  else
    let results := identifiers.map (nukeAsync api a.TypeName)
    let resultsMap := results.foldl upsertResult []
    let errs := results.filterMap (fun r => r.Error)
    { issued := identifiers,
      results := resultsMap.map (fun p => p.2),
      table := resultsMap.map (fun p => mkRow p.1 p.2),
      err := if errs = [] then none else some (.multi errs) }

theorem no_R_no_throttle_signal {s : String} (hR : 'R' ∉ s.data) :
    strContains s "RequestLimitExceeded" = false := by
  by_contra hc
  rw [Bool.not_eq_false] at hc
  have hdata : ("RequestLimitExceeded" : String).data
      = 'R' :: ("equestLimitExceeded" : String).data := rfl
  rw [strContains, hdata] at hc
  exact hR (head_mem_of_containsSubAux hc)

theorem tooMany_text_no_throttle_signal (n : Nat) :
    strContains (tooManyResourcesTargetedErrText n) "RequestLimitExceeded"
      = false := by
  apply no_R_no_throttle_signal
  intro hmem
  rw [tooManyResourcesTargetedErrText, String.data_append, String.data_append] at hmem
  rcases List.mem_append.mp hmem with hmem | hmem
  · rcases List.mem_append.mp hmem with hmem | hmem
    · revert hmem
      decide
    · have := isDigit_of_mem_goItoa hmem
      simp at this
  · revert hmem
    decide

/-- C7: for every identifier list whose length exceeds `MaxBatchSize` (50),
`AwsResource.Nuke` fails immediately with the distinguishable
`TooManyResourcesTargetedErr` carrying the offending target count, issuing no
delete call for any identifier; its error text does not carry the engine's
rate-limit signal, so the only automatic-retry path never fires on it. -/
theorem nuke_too_many_targets (api : DeleteApi) (a : AwsResource)
    (ids : List String) (h : a.MaxBatchSize < ids.length) :
    (a.Nuke api ids).err = some (.tooMany ids.length) ∧
    (a.Nuke api ids).issued = [] ∧
    (a.Nuke api ids).results = [] ∧
    renderNukeErr (.tooMany ids.length) = tooManyResourcesTargetedErrText ids.length ∧
    strContains (renderNukeErr (.tooMany ids.length)) "RequestLimitExceeded"
      = false := by
  have hgt : ids.length > a.MaxBatchSize := h
  rw [AwsResource.Nuke]
  rw [if_pos hgt]
  exact ⟨rfl, rfl, rfl, rfl, tooMany_text_no_throttle_signal ids.length⟩

/-- Witness for C7 on a concrete 51-identifier batch. -/
theorem nuke_too_many_targets_witness :
    (({ TypeName := "AWS::S3::Bucket", Identifiers := [] } :
        AwsResource).MaxBatchSize
      < ((List.range 51).map (fun i => goItoa i)).length) ∧
    (AwsResource.Nuke
        { deleteErr := fun _ => none, statusOutput := fun _ => none,
          statusErr := fun _ => none }
        { TypeName := "AWS::S3::Bucket", Identifiers := [] }
        ((List.range 51).map (fun i => goItoa i))).err
      = some (.tooMany ((List.range 51).map (fun i => goItoa i)).length) :=
  ⟨by decide,
    (nuke_too_many_targets
      { deleteErr := fun _ => none, statusOutput := fun _ => none,
        statusErr := fun _ => none }
      { TypeName := "AWS::S3::Bucket", Identifiers := [] }
      ((List.range 51).map (fun i => goItoa i)) (by decide)).1⟩

theorem mem_map_snd_upsertResult {m : List (String × AwsResourceResult)}
    {x r : AwsResourceResult} (h : r ∈ (upsertResult m x).map (fun p => p.2)) :
    r = x ∨ r ∈ m.map (fun p => p.2) := by
  induction m with
  | nil =>
    simp [upsertResult] at h
    exact Or.inl h
  | cons kv rest ih =>
    obtain ⟨k, v⟩ := kv
    rw [upsertResult] at h
    split at h
    · simp at h
      rcases h with h | h
      · exact Or.inl h
      · exact Or.inr (by simp [h])
    · simp at h
      rcases h with h | h
      · exact Or.inr (by simp [h])
      · rcases ih (by simpa using h) with h | h
        · exact Or.inl h
        · exact Or.inr (by simp at h ⊢; exact Or.inr h)

theorem mem_map_snd_foldl_upsert {rs : List AwsResourceResult}
    {m : List (String × AwsResourceResult)} {r : AwsResourceResult}
    (h : r ∈ (rs.foldl upsertResult m).map (fun p => p.2)) :
    r ∈ m.map (fun p => p.2) ∨ r ∈ rs := by
  induction rs generalizing m with
  | nil =>
    exact Or.inl h
  | cons x rs ih =>
    rw [List.foldl_cons] at h
    rcases ih h with h | h
    · rcases mem_map_snd_upsertResult h with h | h
      · exact Or.inr (by simp [h])
      · exact Or.inl h
    · exact Or.inr (List.mem_cons_of_mem x h)

theorem nukeAsync_fields_bounds (api : DeleteApi) (typeName identifier : String) :
    (nukeAsync api typeName identifier).Operation.length ≤ 25 ∧
    (nukeAsync api typeName identifier).OperationStatus.length ≤ 25 ∧
    (nukeAsync api typeName identifier).StatusMessage.length ≤ 60 := by
  rw [nukeAsync]
  split
  · exact ⟨(by decide : ("" : String).length ≤ 25),
      (by decide : ("" : String).length ≤ 25),
      (by decide : ("" : String).length ≤ 60)⟩
  · split
    · exact ⟨truncateText_length_le _ 25, truncateText_length_le _ 25,
        truncateText_length_le _ 60⟩
    · exact ⟨(by decide : ("" : String).length ≤ 25),
      (by decide : ("Not Available" : String).length ≤ 25),
      (by decide : ("Not Available" : String).length ≤ 60)⟩

/-- C10: every result row produced by `AwsResource.Nuke` has its `Operation` and
`OperationStatus` fields bounded by 25 characters and its `StatusMessage` field
bounded by 60 characters, and `truncateText(s, max)` returns `s` when
`len(s) < max` and the first `max` characters otherwise, so each reported field
never exceeds its bound. -/
theorem nuke_fields_truncated :
    (∀ (api : DeleteApi) (a : AwsResource) (ids : List String)
        (r : AwsResourceResult), r ∈ (a.Nuke api ids).results →
      r.Operation.length ≤ 25 ∧ r.OperationStatus.length ≤ 25 ∧
        r.StatusMessage.length ≤ 60) ∧
    (∀ (s : String) (max : Nat),
      (s.length < max → truncateText s max = s) ∧
      (max ≤ s.length → (truncateText s max).data = s.data.take max) ∧
      (truncateText s max).length ≤ max) := by
  constructor
  · intro api a ids r hr
    rw [AwsResource.Nuke] at hr
    split at hr
    · simp at hr
    · simp only at hr
      rcases mem_map_snd_foldl_upsert hr with h | h
      · simp at h
      · obtain ⟨identifier, _, hid⟩ := List.mem_map.mp h
        rw [← hid]
        exact nukeAsync_fields_bounds api a.TypeName identifier
  · intro s max
    refine ⟨?_, ?_, truncateText_length_le s max⟩
    · intro h
      rw [truncateText, if_pos h]
    · intro h
      rw [truncateText, if_neg (by omega)]

/-- Witness for C10 on a concrete over-long provider status report. -/
theorem nuke_fields_truncated_witness :
    (nukeAsync
        { deleteErr := fun _ => none,
          statusOutput := fun _ => some
            { Operation := "DELETE_WITH_A_VERY_LONG_OPERATION_NAME",
              OperationStatus := "FAILED_BUT_WITH_A_VERY_LONG_STATUS",
              StatusMessage := some "this status message is long enough to overrun the sixty character bound by a clear margin",
              ErrorCode := "" },
          statusErr := fun _ => none } "AWS::Logs::LogGroup" "testy")
      ∈ (AwsResource.Nuke
        { deleteErr := fun _ => none,
          statusOutput := fun _ => some
            { Operation := "DELETE_WITH_A_VERY_LONG_OPERATION_NAME",
              OperationStatus := "FAILED_BUT_WITH_A_VERY_LONG_STATUS",
              StatusMessage := some "this status message is long enough to overrun the sixty character bound by a clear margin",
              ErrorCode := "" },
          statusErr := fun _ => none }
        { TypeName := "AWS::Logs::LogGroup", Identifiers := ["testy"] }
        ["testy"]).results ∧
    ((nukeAsync
        { deleteErr := fun _ => none,
          statusOutput := fun _ => some
            { Operation := "DELETE_WITH_A_VERY_LONG_OPERATION_NAME",
              OperationStatus := "FAILED_BUT_WITH_A_VERY_LONG_STATUS",
              StatusMessage := some "this status message is long enough to overrun the sixty character bound by a clear margin",
              ErrorCode := "" },
          statusErr := fun _ => none } "AWS::Logs::LogGroup" "testy").Operation.length ≤ 25 ∧
      (nukeAsync
        { deleteErr := fun _ => none,
          statusOutput := fun _ => some
            { Operation := "DELETE_WITH_A_VERY_LONG_OPERATION_NAME",
              OperationStatus := "FAILED_BUT_WITH_A_VERY_LONG_STATUS",
              StatusMessage := some "this status message is long enough to overrun the sixty character bound by a clear margin",
              ErrorCode := "" },
          statusErr := fun _ => none } "AWS::Logs::LogGroup" "testy").OperationStatus.length ≤ 25 ∧
      (nukeAsync
        { deleteErr := fun _ => none,
          statusOutput := fun _ => some
            { Operation := "DELETE_WITH_A_VERY_LONG_OPERATION_NAME",
              OperationStatus := "FAILED_BUT_WITH_A_VERY_LONG_STATUS",
              StatusMessage := some "this status message is long enough to overrun the sixty character bound by a clear margin",
              ErrorCode := "" },
          statusErr := fun _ => none } "AWS::Logs::LogGroup" "testy").StatusMessage.length ≤ 60) ∧
    ("abc".length < 10 ∧ truncateText "abc" 10 = "abc") :=
  ⟨by decide,
    nuke_fields_truncated.1
      { deleteErr := fun _ => none,
        statusOutput := fun _ => some
          { Operation := "DELETE_WITH_A_VERY_LONG_OPERATION_NAME",
            OperationStatus := "FAILED_BUT_WITH_A_VERY_LONG_STATUS",
            StatusMessage := some "this status message is long enough to overrun the sixty character bound by a clear margin",
            ErrorCode := "" },
        statusErr := fun _ => none }
      { TypeName := "AWS::Logs::LogGroup", Identifiers := ["testy"] }
      ["testy"] _ (by decide),
    by decide, (nuke_fields_truncated.2 "abc" 10).1 (by decide)⟩

/-! ## The deletion engine (aws/aws.go lines 333-419) -/

/-- What one region run did: the batches passed to `Nuke` in order, the data
rows collected, and the error that aborted the run, if any. -/
structure RegionRunResult where
  attempts : List (List String)
  rows : List (List String)
  err : Option String
  deriving DecidableEq, Repr

/-- The batch loop of `nukeAllResourcesInRegion` (aws/aws.go lines 346-368)
over the per-batch `Nuke` call, which returns (table rows, error text).  On an
error whose text contains `"RequestLimitExceeded"` the Go `continue` runs the
loop's `i++`, so the engine sleeps and moves to the NEXT batch, dropping the
failed batch's returned rows; any other error returns immediately; on success
the rows are appended and the next batch follows. -/
def processBatches (nukeFn : List String → List (List String) × Option String) :
    List (List String) → RegionRunResult
  | [] => { attempts := [], rows := [], err := none }
  | b :: rest =>
    match nukeFn b with
    | (_, some e) =>
      if strContains e "RequestLimitExceeded" then
        let r := processBatches nukeFn rest
        { attempts := b :: r.attempts, rows := r.rows, err := r.err }
      else
        { attempts := [b], rows := [], err := some e }
    | (tbl, none) =>
      let r := processBatches nukeFn rest
      { attempts := b :: r.attempts, rows := tbl ++ r.rows, err := r.err }

/-- The per-batch call the engine makes: `resources.Nuke(config, batch)`, with
the returned error rendered to its `Error()` text (as the engine's
`strings.Contains` test sees it). -/
def nukeFnOf (api : DeleteApi) (a : AwsResource) (batch : List String) :
    List (List String) × Option String :=
  ((a.Nuke api batch).table, (a.Nuke api batch).err.map renderNukeErr)

/-- Embedding of `nukeAllResourcesInRegion` (aws/aws.go lines 333-387): for
each resource of the region, split its identifiers into `MaxBatchSize`-sized
batches and run the batch loop; a non-rate-limit error returns immediately,
leaving the remaining resources unprocessed. -/
def nukeAllResourcesInRegion (api : DeleteApi) :
    List AwsResource → RegionRunResult
  | [] => { attempts := [], rows := [], err := none }
  | a :: rest =>
    let r := processBatches (nukeFnOf api a)
      (split a.ResourceIdentifiers (a.MaxBatchSize : Int))
    match r.err with
    | some e => { attempts := r.attempts, rows := r.rows, err := some e }
    | none =>
      let rr := nukeAllResourcesInRegion api rest
      { attempts := r.attempts ++ rr.attempts, rows := r.rows ++ rr.rows,
        err := rr.err }

/-- `account.Resources[region]` with Go zero-value semantics for a missing
key. -/
def lookupRegion (account : List (String × List AwsResource)) (region : String) :
    List AwsResource :=
  match account.find? (fun p => p.1 == region) with
  | some p => p.2
  | none => []

/-- Embedding of `NukeAllResources` (aws/aws.go lines 395-419): process the
regions in order; an error from a region's processing is returned immediately.
Config/credential loading is modelled as infallible; the remote behavior per
region is the region-indexed oracle `api`. -/
def NukeAllResources (api : String → DeleteApi)
    (account : List (String × List AwsResource)) :
    List String → List String × Option String
  | [] => ([], none)
  | region :: rest =>
    let r := nukeAllResourcesInRegion (api region) (lookupRegion account region)
    match r.err with
    | some e => ([region], some e)
    | none =>
      let p := NukeAllResources api account rest
      (region :: p.1, p.2)

/-- A remote oracle that rejects every delete with a rate-limit message. -/
def throttlingApi : DeleteApi :=
  { deleteErr := fun _ => some "RequestLimitExceeded: Request limit exceeded.",
    statusOutput := fun _ => none, statusErr := fun _ => none }

/-- A remote oracle that rejects every delete with a permission error. -/
def accessDeniedApi : DeleteApi :=
  { deleteErr := fun _ => some "AccessDenied",
    statusOutput := fun _ => none, statusErr := fun _ => none }

/-- 51 identifiers: enough for two batches at `MaxBatchSize` 50. -/
def fiftyOneIds : List String :=
  (List.range 51).map goItoa

def twoBatchResource : AwsResource :=
  { TypeName := "AWS::EC2::Instance", Identifiers := fiftyOneIds }

def oneIdResource : AwsResource :=
  { TypeName := "AWS::Logs::LogGroup", Identifiers := ["i1"] }

theorem processBatches_attempts_take
    (nukeFn : List String → List (List String) × Option String)
    (batches : List (List String)) :
    ∃ k, (processBatches nukeFn batches).attempts = batches.take k := by
  induction batches with
  | nil => exact ⟨0, rfl⟩
  | cons b rest ih =>
    rcases hnb : nukeFn b with ⟨tbl, oerr⟩
    cases oerr with
    | some e =>
      by_cases hsig : strContains e "RequestLimitExceeded" = true
      · obtain ⟨k, hk⟩ := ih
        refine ⟨k + 1, ?_⟩
        simp [processBatches, hnb, hsig, hk]
      · refine ⟨1, ?_⟩
        simp [processBatches, hnb, Bool.not_eq_true _ ▸ hsig]
    | none =>
      obtain ⟨k, hk⟩ := ih
      refine ⟨k + 1, ?_⟩
      simp [processBatches, hnb, hk]

/-- C1 (amended): in `nukeAllResourcesInRegion`'s batch loop the attempted
batches always form a prefix of the batch list — no batch is ever attempted
twice.  When a batch's `Nuke` error contains the rate-limit signal the engine
pauses and then advances to the NEXT batch (the failed batch is skipped and its
rows dropped, not re-attempted); every other non-nil batch error aborts the
region run immediately (it is returned and no further batch is attempted)
rather than being recorded and advanced past. -/
theorem nukeRegion_batch_loop_spec (api : DeleteApi) (a : AwsResource) :
    (∀ batches, ∃ k,
      (processBatches (nukeFnOf api a) batches).attempts = batches.take k) ∧
    (∃ k, (nukeAllResourcesInRegion api [a]).attempts
      = (split a.ResourceIdentifiers (a.MaxBatchSize : Int)).take k) ∧
    (∀ b rest tbl e, nukeFnOf api a b = (tbl, some e) →
      strContains e "RequestLimitExceeded" = true →
      processBatches (nukeFnOf api a) (b :: rest)
        = { attempts := b :: (processBatches (nukeFnOf api a) rest).attempts,
            rows := (processBatches (nukeFnOf api a) rest).rows,
            err := (processBatches (nukeFnOf api a) rest).err }) ∧
    (∀ b rest tbl e, nukeFnOf api a b = (tbl, some e) →
      strContains e "RequestLimitExceeded" = false →
      processBatches (nukeFnOf api a) (b :: rest)
        = { attempts := [b], rows := [], err := some e }) := by
  refine ⟨processBatches_attempts_take (nukeFnOf api a), ?_, ?_, ?_⟩
  · obtain ⟨k, hk⟩ := processBatches_attempts_take (nukeFnOf api a)
      (split a.ResourceIdentifiers (a.MaxBatchSize : Int))
    refine ⟨k, ?_⟩
    rw [nukeAllResourcesInRegion]
    rcases herr : (processBatches (nukeFnOf api a)
        (split a.ResourceIdentifiers (a.MaxBatchSize : Int))).err with _ | e
    · simp only [herr]
      rw [show nukeAllResourcesInRegion api [] =
        { attempts := [], rows := [], err := none } from rfl]
      simpa using hk
    · simp only [herr]
      exact hk
  · intro b rest tbl e hnb hsig
    simp [processBatches, hnb, hsig]
  · intro b rest tbl e hnb hsig
    simp [processBatches, hnb, hsig]

set_option maxRecDepth 8000 in
/-- C1 counterexample: with a 51-identifier resource (two batches) and a remote
oracle that always rejects with "RequestLimitExceeded", the engine attempts the
first batch exactly once and then attempts the SECOND batch — the throttled
batch is skipped, not re-attempted, and the error is swallowed (nil).  With a
non-rate-limit error the engine aborts the region instead of advancing: only
the first batch is ever attempted and the error is returned. -/
theorem nukeRegion_batch_loop_cex :
    (nukeAllResourcesInRegion throttlingApi [twoBatchResource]).attempts
      = [fiftyOneIds.take 50, fiftyOneIds.drop 50] ∧
    (nukeAllResourcesInRegion throttlingApi [twoBatchResource]).attempts.count
        (fiftyOneIds.take 50) = 1 ∧
    (nukeAllResourcesInRegion throttlingApi [twoBatchResource]).err = none ∧
    (nukeAllResourcesInRegion accessDeniedApi [twoBatchResource]).attempts
      = [fiftyOneIds.take 50] ∧
    (nukeAllResourcesInRegion accessDeniedApi [twoBatchResource]).err.isSome
      = true := by
  refine ⟨by decide, by decide, by decide, by decide, by decide⟩

/-- Witness for the amended C1: a one-identifier batch failing with a
non-rate-limit error aborts the loop at once. -/
theorem nukeRegion_batch_loop_spec_witness :
    nukeFnOf accessDeniedApi oneIdResource ["i1"]
      = ((AwsResource.Nuke accessDeniedApi oneIdResource ["i1"]).table,
          some "1 error occurred:\n\t* AccessDenied\n\n") ∧
    strContains "1 error occurred:\n\t* AccessDenied\n\n" "RequestLimitExceeded"
      = false ∧
    processBatches (nukeFnOf accessDeniedApi oneIdResource) [["i1"]]
      = { attempts := [["i1"]], rows := [],
          err := some "1 error occurred:\n\t* AccessDenied\n\n" } :=
  ⟨rfl, by decide,
    (nukeRegion_batch_loop_spec accessDeniedApi oneIdResource).2.2.2 ["i1"] []
      ((AwsResource.Nuke accessDeniedApi oneIdResource ["i1"]).table) _ rfl
      (by decide)⟩

/-- C2 (amended): in `NukeAllResources` a non-nil error from processing one
region ABORTS the top-level loop: the failing region is the last one processed,
the error is surfaced immediately, and subsequent regions in the list are NOT
attempted; only when a region succeeds does the loop continue, so the processed
regions always form a prefix of the region list. -/
theorem nukeAllResources_abort_spec (api : String → DeleteApi)
    (account : List (String × List AwsResource)) :
    (∀ region rest e,
      (nukeAllResourcesInRegion (api region) (lookupRegion account region)).err
        = some e →
      NukeAllResources api account (region :: rest) = ([region], some e)) ∧
    (∀ region rest,
      (nukeAllResourcesInRegion (api region) (lookupRegion account region)).err
        = none →
      NukeAllResources api account (region :: rest)
        = (region :: (NukeAllResources api account rest).1,
            (NukeAllResources api account rest).2)) ∧
    (∀ regions, ∃ k, (NukeAllResources api account regions).1 = regions.take k) := by
  refine ⟨?_, ?_, ?_⟩
  · intro region rest e herr
    simp [NukeAllResources, herr]
  · intro region rest herr
    simp [NukeAllResources, herr]
  · intro regions
    induction regions with
    | nil => exact ⟨0, rfl⟩
    | cons region rest ih =>
      rcases herr : (nukeAllResourcesInRegion (api region)
          (lookupRegion account region)).err with _ | e
      · obtain ⟨k, hk⟩ := ih
        refine ⟨k + 1, ?_⟩
        simp [NukeAllResources, herr, hk]
      · refine ⟨1, ?_⟩
        simp [NukeAllResources, herr]

/-- C2 counterexample: with region "r1" failing on a permission error, the
top-level loop stops at "r1": region "r2" is never processed and the error
surfaces immediately, not after every region has been attempted. -/
theorem nukeAllResources_cex :
    NukeAllResources (fun _ => accessDeniedApi) [("r1", [oneIdResource])]
        ["r1", "r2"]
      = (["r1"], some "1 error occurred:\n\t* AccessDenied\n\n") ∧
    "r2" ∉ (NukeAllResources (fun _ => accessDeniedApi) [("r1", [oneIdResource])]
        ["r1", "r2"]).1 := by
  exact ⟨by decide, by decide⟩

/-- Witness for the amended C2 at the same concrete scenario. -/
theorem nukeAllResources_abort_spec_witness :
    (nukeAllResourcesInRegion ((fun _ => accessDeniedApi) "r1")
        (lookupRegion [("r1", [oneIdResource])] "r1")).err
      = some "1 error occurred:\n\t* AccessDenied\n\n" ∧
    NukeAllResources (fun _ => accessDeniedApi) [("r1", [oneIdResource])]
        ["r1", "r2"]
      = (["r1"], some "1 error occurred:\n\t* AccessDenied\n\n") :=
  ⟨by decide,
    (nukeAllResources_abort_spec (fun _ => accessDeniedApi)
      [("r1", [oneIdResource])]).1 "r1" ["r2"]
      "1 error occurred:\n\t* AccessDenied\n\n" (by decide)⟩

/-! ## Discovery: `GetAllResources` (aws/aws.go lines 214-278) -/

/-- The Go runtime panic raised when the nil `ListResources` output is
dereferenced. -/
def nilDereferencePanicText : String :=
  "panic: runtime error: invalid memory address or nil pointer dereference"

/-- The inner type loop of `GetAllResources`: one `ListResources` call per
selected type, appending one `AwsResource` per type whatever the identifier
count.  On a failed call the source logs the error and then falls through to
range over `output.ResourceDescriptions`; the failed call's output is nil, so
that dereference panics (`none` from the oracle models the failed call). -/
def gatherRegionTypes (listRes : String → String → Option (List String))
    (region : String) : List String → Option (List AwsResource)
  | [] => some []
  | ty :: rest =>
    match listRes region ty with
    | none => none
    | some ids =>
      match gatherRegionTypes listRes region rest with
      | none => none
      | some acc => some ({ TypeName := ty, Identifiers := ids } :: acc)

/-- Go map write `account.Resources[region] = resourcesInRegion`. -/
def upsertRegion (acc : List (String × List AwsResource)) (region : String)
    (res : List AwsResource) : List (String × List AwsResource) :=
  match acc with
  | [] => [(region, res)]
  | (k, v) :: rest =>
    if k = region then (k, res) :: rest
    else (k, v) :: upsertRegion rest region res

/-- Key-presence test for the region map. -/
def hasRegionKey : List (String × List AwsResource) → String → Bool
  | [], _ => false
  | (k, _) :: rest, region => k == region || hasRegionKey rest region

/-- The region loop of `GetAllResources`, carrying the accumulated account
map: the synthetic "global" region is skipped, and a region's entry is written
only when its per-type list is non-empty (which holds whenever at least one
resource type was selected). -/
def getAllResourcesGo (listRes : String → String → Option (List String))
    (resourceTypes : List String)
    (acc : List (String × List AwsResource)) :
    List String → Except String (List (String × List AwsResource))
  | [] => .ok acc
  | region :: rest =>
    if region == "global" then getAllResourcesGo listRes resourceTypes acc rest
    else
      match gatherRegionTypes listRes region resourceTypes with
      | none => .error nilDereferencePanicText
      | some res =>
        getAllResourcesGo listRes resourceTypes
          (if 0 < res.length then upsertRegion acc region res else acc) rest

/-- Embedding of `GetAllResources` (aws/aws.go lines 214-278); credential
loading is modelled as infallible, and `excludeAfter`/`configObj` are unused by
the source loop. -/
def GetAllResources (listRes : String → String → Option (List String))
    (targetRegions resourceTypes : List String) :
    Except String (List (String × List AwsResource)) :=
  getAllResourcesGo listRes resourceTypes [] targetRegions

theorem gatherRegionTypes_ok (listRes : String → String → Option (List String))
    (region : String) (types : List String)
    (h : ∀ ty ∈ types, (listRes region ty).isSome = true) :
    ∃ res, gatherRegionTypes listRes region types = some res ∧
      res.length = types.length := by
  induction types with
  | nil => exact ⟨[], rfl, rfl⟩
  | cons ty rest ih =>
    have hty := h ty (List.mem_cons_self ty rest)
    rcases hl : listRes region ty with _ | ids
    · rw [hl] at hty
      simp at hty
    · obtain ⟨res, hres, hlen⟩ := ih (fun t ht => h t (List.mem_cons_of_mem ty ht))
      refine ⟨{ TypeName := ty, Identifiers := ids } :: res, ?_, ?_⟩
      · rw [gatherRegionTypes, hl, hres]
      · simp [hlen]

theorem hasRegionKey_upsert (acc : List (String × List AwsResource))
    (region : String) (res : List AwsResource) (r : String) :
    hasRegionKey (upsertRegion acc region res) r = true ↔
      r = region ∨ hasRegionKey acc r = true := by
  induction acc with
  | nil =>
    have hsymm := @eq_comm String region r
    simp [upsertRegion, hasRegionKey]
    tauto
  | cons kv rest ih =>
    obtain ⟨k, v⟩ := kv
    rw [upsertRegion]
    split
    · rename_i hk
      subst hk
      have hsymm := @eq_comm String k r
      simp [hasRegionKey]
      tauto
    · rename_i hk
      simp [hasRegionKey, ih]
      tauto

theorem getAllResourcesGo_keys (listRes : String → String → Option (List String))
    (types : List String) :
    ∀ (regions : List String) (acc : List (String × List AwsResource)),
      (∀ r ∈ regions, r ≠ "global" → ∀ ty ∈ types, (listRes r ty).isSome = true) →
      ∃ m, getAllResourcesGo listRes types acc regions = .ok m ∧
        ∀ r, hasRegionKey m r = true ↔
          (hasRegionKey acc r = true ∨
            (r ∈ regions ∧ r ≠ "global" ∧ types ≠ [])) := by
  intro regions
  induction regions with
  | nil =>
    intro acc hok
    exact ⟨acc, rfl, fun r => by simp⟩
  | cons region rest ih =>
    intro acc hok
    by_cases hglob : region = "global"
    · subst hglob
      obtain ⟨m, hm, hkeys⟩ := ih acc
        (fun r hr => hok r (List.mem_cons_of_mem _ hr))
      refine ⟨m, ?_, ?_⟩
      · rw [getAllResourcesGo, if_pos (by simp)]
        exact hm
      · intro r
        rw [hkeys r]
        constructor
        · rintro (h | ⟨h1, h2, h3⟩)
          · exact Or.inl h
          · exact Or.inr ⟨List.mem_cons_of_mem _ h1, h2, h3⟩
        · rintro (h | ⟨h1, h2, h3⟩)
          · exact Or.inl h
          · rcases List.mem_cons.mp h1 with rfl | h1
            · exact absurd rfl h2
            · exact Or.inr ⟨h1, h2, h3⟩
    · obtain ⟨res, hres, hlen⟩ := gatherRegionTypes_ok listRes region types
        (hok region (List.mem_cons_self _ _) hglob)
      by_cases htys : types = []
      · subst htys
        have hres0 : res = [] := List.eq_nil_of_length_eq_zero (by simpa using hlen)
        subst hres0
        obtain ⟨m, hm, hkeys⟩ := ih acc
          (fun r hr => hok r (List.mem_cons_of_mem _ hr))
        refine ⟨m, ?_, ?_⟩
        · rw [getAllResourcesGo, if_neg (by simpa using hglob), hres]
          simpa using hm
        · intro r
          rw [hkeys r]
          simp
      · have hpos : 0 < res.length := by
          rw [hlen]
          exact List.length_pos.mpr htys
        obtain ⟨m, hm, hkeys⟩ := ih (upsertRegion acc region res)
          (fun r hr => hok r (List.mem_cons_of_mem _ hr))
        refine ⟨m, ?_, ?_⟩
        · rw [getAllResourcesGo, if_neg (by simpa using hglob), hres]
          simpa [hpos] using hm
        · intro r
          rw [hkeys r, hasRegionKey_upsert]
          constructor
          · rintro ((rfl | h) | ⟨h1, h2, h3⟩)
            · exact Or.inr ⟨List.mem_cons_self _ _, hglob, htys⟩
            · exact Or.inl h
            · exact Or.inr ⟨List.mem_cons_of_mem _ h1, h2, h3⟩
          · rintro (h | ⟨h1, h2, h3⟩)
            · exact Or.inl (Or.inr h)
            · rcases List.mem_cons.mp h1 with rfl | h1
              · exact Or.inl (Or.inl rfl)
              · exact Or.inr ⟨h1, h2, h3⟩

/-- C3 (amended): on a run where every list call succeeds, the region map of
`GetAllResources` has a key for a region IFF that region was targeted, is not
the synthetic "global" region, and at least one resource TYPE was selected —
one `AwsResource` entry is appended per selected type even when it holds zero
identifiers, so a region whose every selected type returned zero identifiers
is still present (the claim's "at least one resource found" invariant does not
hold). -/
theorem getAllResources_region_keys
    (listRes : String → String → Option (List String))
    (targetRegions resourceTypes : List String)
    (hok : ∀ r ∈ targetRegions, r ≠ "global" →
      ∀ ty ∈ resourceTypes, (listRes r ty).isSome = true) :
    ∃ m, GetAllResources listRes targetRegions resourceTypes = .ok m ∧
      ∀ region, hasRegionKey m region = true ↔
        (region ∈ targetRegions ∧ region ≠ "global" ∧ resourceTypes ≠ []) := by
  obtain ⟨m, hm, hkeys⟩ := getAllResourcesGo_keys listRes resourceTypes
    targetRegions [] hok
  refine ⟨m, hm, ?_⟩
  intro region
  rw [hkeys region]
  simp [hasRegionKey]

/-- C3 counterexample: a region whose single selected type returned ZERO
identifiers still appears as a key of the resulting map. -/
theorem getAllResources_zero_found_key_cex :
    GetAllResources (fun _ _ => some []) ["us-east-1"] ["AWS::S3::Bucket"]
      = .ok [("us-east-1", [{ TypeName := "AWS::S3::Bucket", Identifiers := [] }])] ∧
    hasRegionKey
      [("us-east-1", [{ TypeName := "AWS::S3::Bucket", Identifiers := [] }])]
      "us-east-1" = true :=
  ⟨rfl, by decide⟩

/-- Witness for the amended C3 on a one-region, one-type discovery run. -/
theorem getAllResources_region_keys_witness :
    (∀ r ∈ ["us-east-1"], r ≠ "global" →
      ∀ ty ∈ ["AWS::S3::Bucket"],
        (((fun _ _ => some ["b-1"]) : String → String → Option (List String))
          r ty).isSome = true) ∧
    (∃ m, GetAllResources (fun _ _ => some ["b-1"]) ["us-east-1"]
        ["AWS::S3::Bucket"] = .ok m ∧
      ∀ region, hasRegionKey m region = true ↔
        (region ∈ ["us-east-1"] ∧ region ≠ "global" ∧
          (["AWS::S3::Bucket"] : List String) ≠ [])) :=
  ⟨by decide,
    getAllResources_region_keys (fun _ _ => some ["b-1"]) ["us-east-1"]
      ["AWS::S3::Bucket"] (by decide)⟩

/-- C4 (code bug): when the list call for a single resource type fails (nil
output, non-nil error), `GetAllResources` does not skip the type — after
logging it falls through and dereferences the nil output
(`output.ResourceDescriptions`, aws/aws.go line 257), so the run panics
instead of treating the type as zero resources and continuing. -/
theorem getAllResources_panics_on_list_failure :
    GetAllResources (fun _ _ => none) ["us-east-1"] ["AWS::Logs::LogGroup"]
      = .error nilDereferencePanicText ∧
    ∀ m, GetAllResources (fun _ _ => none) ["us-east-1"] ["AWS::Logs::LogGroup"]
      ≠ .ok m := by
  refine ⟨rfl, ?_⟩
  intro m h
  rw [show GetAllResources (fun _ _ => none) ["us-east-1"] ["AWS::Logs::LogGroup"]
    = .error nilDereferencePanicText from rfl] at h
  exact Except.noConfusion h

/-! ## `AwsRegionResource` lookups (companion file lines 71-109) -/

/-- A region's discovered resources. -/
structure AwsRegionResource where
  Resources : List AwsResource
  deriving DecidableEq, Repr

/-- Go `strings.ToLower`; Lean's `Char.toLower` agrees with Go on the basic
latin range, the only case the source exercises. -/
def strToLower (s : String) : String :=
  ⟨s.data.map Char.toLower⟩

/-- The Go map writes `m[k] = append(m[k], id)` iterated over `ids` (a fresh
key enters in insertion order with exactly `ids`). -/
def mapAppendIds (m : List (String × List String)) (k : String)
    (ids : List String) : List (String × List String) :=
  match m with
  | [] => [(k, ids)]
  | (k2, v) :: rest =>
    if k2 = k then (k2, v ++ ids) :: rest
    else (k2, v) :: mapAppendIds rest k ids

/-- Embedding of `MapResourceNameToIdentifiers`: the map is keyed by the
original, case-sensitive `TypeName` (`ResourceName()`); resources with no
identifiers are skipped.  An association list in first-insertion order stands
for the Go map. -/
def AwsRegionResource.MapResourceNameToIdentifiers (arr : AwsRegionResource) :
    List (String × List String) :=
  arr.Resources.foldl
    (fun m resource =>
      if 0 < resource.ResourceIdentifiers.length then
        mapAppendIds m resource.ResourceName resource.ResourceIdentifiers
      else m) []

/-- Go map read `idMap[resourceType]` with ok-flag semantics. -/
def mapLookup (m : List (String × List String)) (k : String) :
    Option (List String) :=
  match m with
  | [] => none
  | (k2, v) :: rest => if k2 == k then some v else mapLookup rest k

/-- Embedding of `CountOfResourceType`: the queried name is LOWERCASED before
the lookup. -/
def AwsRegionResource.CountOfResourceType (arr : AwsRegionResource)
    (resourceType : String) : Nat :=
  match mapLookup arr.MapResourceNameToIdentifiers (strToLower resourceType) with
  | some val => val.length
  | none => 0

/-- Embedding of `ResourceTypePresent`. -/
def AwsRegionResource.ResourceTypePresent (arr : AwsRegionResource)
    (resourceType : String) : Bool :=
  decide (0 < arr.CountOfResourceType resourceType)

/-- Embedding of `IdentifiersForResourceType` (lowercased lookup as well). -/
def AwsRegionResource.IdentifiersForResourceType (arr : AwsRegionResource)
    (resourceType : String) : List String :=
  match mapLookup arr.MapResourceNameToIdentifiers (strToLower resourceType) with
  | some val => val
  | none => []

theorem char_toNat_ofNat_of_lt {m : Nat} (h : m < 55296) :
    (Char.ofNat m).toNat = m := by
  have hv : m.isValidChar := Or.inl h
  rw [Char.ofNat, dif_pos hv]
  rfl

theorem char_isUpper_iff (c : Char) :
    c.isUpper = true ↔ 65 ≤ c.toNat ∧ c.toNat ≤ 90 := by
  simp [Char.isUpper, ge_iff_le, UInt32.le_def, BitVec.le_def, Char.toNat,
    UInt32.toNat]

theorem isUpper_toLower_false (c : Char) : (Char.toLower c).isUpper = false := by
  rw [Char.toLower]
  split
  · rename_i h
    rw [Bool.eq_false_iff]
    intro hc
    rw [char_isUpper_iff] at hc
    rw [char_toNat_ofNat_of_lt (by omega)] at hc
    omega
  · rename_i h
    rw [Bool.eq_false_iff]
    intro hc
    rw [char_isUpper_iff] at hc
    omega

theorem ne_strToLower_of_upper_mem {s q : String} {c : Char}
    (hc : c ∈ s.data) (hup : c.isUpper = true) : s ≠ strToLower q := by
  intro heq
  rw [heq] at hc
  obtain ⟨d, _, hd⟩ := List.mem_map.mp hc
  rw [← hd, isUpper_toLower_false] at hup
  exact Bool.false_ne_true hup

theorem mapLookup_mapAppendIds_ne (m : List (String × List String))
    (k : String) (ids : List String) (q : String) (h : q ≠ k) :
    mapLookup (mapAppendIds m k ids) q = mapLookup m q := by
  induction m with
  | nil =>
    have hbeq : (k == q) = false := by simpa using Ne.symm h
    simp [mapAppendIds, mapLookup, hbeq]
  | cons kv rest ih =>
    obtain ⟨k2, v⟩ := kv
    rw [mapAppendIds]
    split
    · rename_i hk2
      subst hk2
      have hbeq : (k2 == q) = false := by simpa using Ne.symm h
      simp [mapLookup, hbeq]
    · simp only [mapLookup]
      split
      · rfl
      · exact ih

theorem mapLookup_fold_none (q : String) :
    ∀ (resources : List AwsResource) (acc : List (String × List String)),
      mapLookup acc q = none →
      (∀ r ∈ resources, r.TypeName ≠ q) →
      mapLookup
        (resources.foldl
          (fun m resource =>
            if 0 < resource.ResourceIdentifiers.length then
              mapAppendIds m resource.ResourceName resource.ResourceIdentifiers
            else m) acc) q = none := by
  intro resources
  induction resources with
  | nil =>
    intro acc hacc _
    exact hacc
  | cons r rest ih =>
    intro acc hacc hne
    rw [List.foldl_cons]
    refine ih _ ?_ (fun r2 hr2 => hne r2 (List.mem_cons_of_mem r hr2))
    split
    · rw [mapLookup_mapAppendIds_ne]
      · exact hacc
      · exact Ne.symm (hne r (List.mem_cons_self r rest))
    · exact hacc

/-- C9 (amended): `CountOfResourceType`, `ResourceTypePresent` and
`IdentifiersForResourceType` lowercase the queried name while
`MapResourceNameToIdentifiers` keys the map by the original case-sensitive
`TypeName`.  Hence whenever every recorded type name contains at least one
uppercase character — in particular when the region's identifiers are recorded
under the exact (uppercase-containing) queried name — the three lookups return
0, false and the empty list.  (The original claim's quantification over EVERY
region fails: a region keyed by the lowercased spelling of the query is still
found; see the counterexample.) -/
theorem region_lookups_miss_uppercase_keys (arr : AwsRegionResource)
    (q : String)
    (hup : ∀ r ∈ arr.Resources, ∃ c ∈ r.TypeName.data, c.isUpper = true) :
    arr.CountOfResourceType q = 0 ∧
    arr.ResourceTypePresent q = false ∧
    arr.IdentifiersForResourceType q = [] := by
  have hlook : mapLookup arr.MapResourceNameToIdentifiers (strToLower q)
      = none := by
    refine mapLookup_fold_none (strToLower q) arr.Resources [] rfl ?_
    intro r hr
    obtain ⟨c, hc, hcup⟩ := hup r hr
    exact ne_strToLower_of_upper_mem hc hcup
  refine ⟨?_, ?_, ?_⟩
  · rw [AwsRegionResource.CountOfResourceType, hlook]
  · rw [AwsRegionResource.ResourceTypePresent,
      AwsRegionResource.CountOfResourceType, hlook]
    rfl
  · rw [AwsRegionResource.IdentifiersForResourceType, hlook]

/-- C9 counterexample: for a region holding identifiers under the LOWERCASED
spelling "aws::s3::bucket", the uppercase-containing query "AWS::S3::Bucket"
does find them — `CountOfResourceType` returns 1 and `ResourceTypePresent`
returns true, so the claim's "returns 0 for every AwsRegionResource" is
false. -/
theorem region_lookups_lowercase_key_cex :
    ({ Resources := [{ TypeName := "aws::s3::bucket", Identifiers := ["b-1"] }] } :
        AwsRegionResource).CountOfResourceType "AWS::S3::Bucket" = 1 ∧
    (∃ c ∈ ("AWS::S3::Bucket" : String).data, c.isUpper = true) ∧
    ({ Resources := [{ TypeName := "aws::s3::bucket", Identifiers := ["b-1"] }] } :
        AwsRegionResource).ResourceTypePresent "AWS::S3::Bucket" = true ∧
    ({ Resources := [{ TypeName := "aws::s3::bucket", Identifiers := ["b-1"] }] } :
        AwsRegionResource).IdentifiersForResourceType "AWS::S3::Bucket"
      = ["b-1"] := by
  refine ⟨by decide, ⟨'A', by decide, by decide⟩, by decide, by decide⟩

/-- Witness for the amended C9: identifiers recorded under the exact
uppercase-containing queried name are invisible to the lowercased lookups. -/
theorem region_lookups_miss_uppercase_keys_witness :
    (∀ r ∈ ({ Resources :=
        [{ TypeName := "AWS::S3::Bucket", Identifiers := ["b-1"] }] } :
          AwsRegionResource).Resources,
      ∃ c ∈ r.TypeName.data, c.isUpper = true) ∧
    ({ Resources := [{ TypeName := "AWS::S3::Bucket", Identifiers := ["b-1"] }] } :
        AwsRegionResource).CountOfResourceType "AWS::S3::Bucket" = 0 ∧
    ({ Resources := [{ TypeName := "AWS::S3::Bucket", Identifiers := ["b-1"] }] } :
        AwsRegionResource).ResourceTypePresent "AWS::S3::Bucket" = false ∧
    ({ Resources := [{ TypeName := "AWS::S3::Bucket", Identifiers := ["b-1"] }] } :
        AwsRegionResource).IdentifiersForResourceType "AWS::S3::Bucket" = [] :=
  ⟨fun r hr => by
      rcases List.mem_singleton.mp hr with rfl
      exact ⟨'A', by decide, by decide⟩,
    (region_lookups_miss_uppercase_keys
      { Resources := [{ TypeName := "AWS::S3::Bucket", Identifiers := ["b-1"] }] }
      "AWS::S3::Bucket"
      (fun r hr => by
        rcases List.mem_singleton.mp hr with rfl
        exact ⟨'A', by decide, by decide⟩)).1,
    (region_lookups_miss_uppercase_keys
      { Resources := [{ TypeName := "AWS::S3::Bucket", Identifiers := ["b-1"] }] }
      "AWS::S3::Bucket"
      (fun r hr => by
        rcases List.mem_singleton.mp hr with rfl
        exact ⟨'A', by decide, by decide⟩)).2.1,
    (region_lookups_miss_uppercase_keys
      { Resources := [{ TypeName := "AWS::S3::Bucket", Identifiers := ["b-1"] }] }
      "AWS::S3::Bucket"
      (fun r hr => by
        rcases List.mem_singleton.mp hr with rfl
        exact ⟨'A', by decide, by decide⟩)).2.2⟩
